import Mathlib

/-!
Verification of the USDC balance monitor (`usdt_monitor.py`).

The script polls a Solana account's USDC balance, infers inbound transfers
from positive balance deltas, keeps an in-memory transaction history with a
running total, reports time-windowed sums, and pushes statistics to a
Discord webhook.

Modelling conventions:
* Monetary amounts and timestamps are modelled as exact rationals (`ℚ`);
  `datetime` differences become rational subtraction of timestamps.
* Python strings become `List Char` / `String`; `str.rstrip(c)` is
  `List.rdropWhile (· == c)`.
* `f"{value:.10f}"` is modelled for nonnegative `value` by the correctly
  rounded (round-half-to-even, as CPython formats doubles) integer
  `round(value * 10^10)` rendered with exactly ten fractional digits.
* Fallible I/O (Solana RPC, `requests.post`) is modelled by environment
  records enumerating the outcomes the `try`/`except` structure of the
  source distinguishes; the Lean functions are total, mirroring the fact
  that the Python functions catch all exceptions internally.
-/

/- ### Decimal digit rendering (the `f"{value:.10f}"` part of `format_number`) -/

/-- Decimal digits of `n`, least significant first, empty for `0`; the first
argument is structural fuel so that concrete instances reduce in the kernel. -/
def decDigitsRevFuel : ℕ → ℕ → List Char
  | 0, _ => []
  | f + 1, n => if n = 0 then [] else Nat.digitChar (n % 10) :: decDigitsRevFuel f (n / 10)

/-- Decimal digits of `n`, least significant first (empty for `0`). -/
def decDigitsRev (n : ℕ) : List Char := decDigitsRevFuel n n

/-- Decimal digit string of a natural number, most significant first,
`"0"` for zero — the digits Python prints for an integer. -/
def natDigits (n : ℕ) : List Char := if n = 0 then ['0'] else (decDigitsRev n).reverse

/-- The ten fractional digits printed by `f"{value:.10f}"`, given the
fractional part scaled by `10^10` (left-padded with zeros to width 10). -/
def padFrac (m : ℕ) : List Char :=
  List.replicate (10 - (natDigits m).length) '0' ++ natDigits m

/-- Character string of `f"{value:.10f}"`, given the rounded scaled value
`m = round(value * 10^10)` of a nonnegative `value`. -/
def pyFixedChars (m : ℕ) : List Char :=
  natDigits (m / 10 ^ 10) ++ '.' :: padFrac (m % 10 ^ 10)

/-- Round half to even, clamped to `ℕ` (inputs of interest are nonnegative):
the rounding CPython applies when formatting a double with `:.10f`. -/
def roundHalfEvenNN (q : ℚ) : ℕ :=
  (if q - (⌊q⌋ : ℚ) < 1 / 2 then ⌊q⌋
   else if (1 : ℚ) / 2 < q - (⌊q⌋ : ℚ) then ⌊q⌋ + 1
   else if ⌊q⌋ % 2 = 0 then ⌊q⌋ else ⌊q⌋ + 1).toNat

/-- The value `value * 10^10` rounded to an integer: the numeric content of
`f"{value:.10f}"` for nonnegative `value`. -/
def fixed10_num (q : ℚ) : ℕ := roundHalfEvenNN (q * 10 ^ 10)

/- ### `format_number` (usdt_monitor.py lines 80–103) -/

/-- Python `s.rstrip(c)`: remove every trailing occurrence of `c`. -/
def rstrip (c : Char) (l : List Char) : List Char := List.rdropWhile (fun x => x == c) l

/-- Python `s.split('.')` for a string with at most one `'.'`: the part
before the dot, and the part after it when a dot is present. -/
def split_dot : List Char → List Char × Option (List Char)
  | [] => ([], none)
  | c :: cs =>
    if c = '.' then ([], some cs)
    else
      let p := split_dot cs
      (c :: p.1, p.2)

/-- The thousands-separator loop of `format_number` (lines 93–97): iterate
over the reversed integer part with index `i`, prepending a space before
every digit whose index is a positive multiple of 3, then the digit. -/
def format_integer_loop : List Char → ℕ → List Char → List Char
  | [], _, acc => acc
  | d :: ds, i, acc =>
    format_integer_loop ds (i + 1) (d :: (if 0 < i ∧ i % 3 = 0 then ' ' :: acc else acc))

/-- Lines 88–103 of `format_number`, operating on the rounded scaled value
`m` standing for `f"{value:.10f}"`: strip trailing zeros, strip a trailing
dot, split at the dot, group the integer part, reattach the decimal part. -/
def format_from_fixed (m : ℕ) : String :=
  let stripped := rstrip '.' (rstrip '0' (pyFixedChars m))
  let parts := split_dot stripped
  let decimal_part : Option (List Char) :=
    match parts.2 with
    | some d => if d = [] then none else some d
    | none => none
  let formatted_integer := format_integer_loop parts.1.reverse 0 []
  match decimal_part with
  | some d => String.mk (formatted_integer ++ '.' :: d)
  | none => String.mk formatted_integer

/-- Function `format_number` (lines 80–103): `0` renders as `"0"`; otherwise the
`:.10f` rendering is stripped of trailing zeros and dot and the integer
part is grouped with spaces. Faithful for nonnegative inputs (the script
only formats balances and received amounts, which are nonnegative). -/
def format_number (value : ℚ) : String :=
  if value = 0 then "0" else format_from_fixed (fixed10_num value)

/- ### Specification-side formatter, for the refinement comparison -/

/-- Chunks of three characters starting from the head (the list is given
least significant digit first), the last chunk possibly shorter. -/
def chunksRev : List Char → List (List Char)
  | [] => []
  | a :: l => (a :: l).take 3 :: chunksRev (l.drop 2)
termination_by l => l.length
decreasing_by
  simp only [List.length_drop, List.length_cons]
  omega

/-- Join digit groups (most significant group first) with single spaces. -/
def spec_group3 : List (List Char) → List Char
  | [] => []
  | [c] => c
  | c :: rest => c ++ ' ' :: spec_group3 rest

/-- Spec reading of the thousands separator: cut the digit string into
groups of three counted from the right and join them with spaces. -/
def spec_group_int (ds : List Char) : List Char :=
  spec_group3 (((chunksRev ds.reverse).map List.reverse).reverse)

/-- The formatter as §4.2 of the spec words it: `0` renders as `"0"`;
otherwise fix to 10 fractional digits, strip trailing zeros (dropping the
decimal point when nothing remains), group the integer part in threes from
the right with spaces, and never group the decimal part. -/
def spec_format (value : ℚ) : String :=
  if value = 0 then "0"
  else
    let m := fixed10_num value
    let intDigits := natDigits (m / 10 ^ 10)
    let decDigits := rstrip '0' (padFrac (m % 10 ^ 10))
    if decDigits = [] then String.mk (spec_group_int intDigits)
    else String.mk (spec_group_int intDigits ++ '.' :: decDigits)

/- ### `get_received_in_period` (lines 106–115) -/

/-- The generator-expression sum of line 114: add the amount of every
record whose timestamp is at least the cutoff. -/
def sum_if_ge (cutoff : ℚ) : List (ℚ × ℚ) → ℚ
  | [] => 0
  | r :: rest => (if cutoff ≤ r.1 then r.2 else 0) + sum_if_ge cutoff rest

/-- Function `get_received_in_period` (lines 106–115): `0.0` for an empty history,
otherwise the sum of the amounts with `timestamp >= now - seconds`.
The implicit `datetime.now()` of line 113 is the explicit `now` argument. -/
def get_received_in_period (transaction_history : List (ℚ × ℚ)) (now seconds : ℚ) : ℚ :=
  if transaction_history = [] then 0
  else sum_if_ge (now - seconds) transaction_history

/- ### `get_statistics_data` (lines 135–152) -/

/-- The dictionary returned by `get_statistics_data`; `none` models the
Python `None` marking a window not yet covered by the session. -/
structure StatsData where
  last_5_min : ℚ
  last_15_min : Option ℚ
  last_hour : Option ℚ
  last_24h : Option ℚ
  deriving Repr, DecidableEq

/-- Function `get_statistics_data` (lines 135–152): elapsed seconds since
`monitoring_start_time` (0 when it is unset) gate the 15-minute, 1-hour and
24-hour sums; the 5-minute sum is always present. -/
def get_statistics_data (transaction_history : List (ℚ × ℚ)) (now : ℚ)
    (monitoring_start_time : Option ℚ) : StatsData :=
  let elapsed_seconds : ℚ :=
    match monitoring_start_time with
    | some t => now - t
    | none => 0
  { last_5_min := get_received_in_period transaction_history now 300
    last_15_min :=
      if 900 ≤ elapsed_seconds then some (get_received_in_period transaction_history now 900)
      else none
    last_hour :=
      if 3600 ≤ elapsed_seconds then some (get_received_in_period transaction_history now 3600)
      else none
    last_24h :=
      if 86400 ≤ elapsed_seconds then some (get_received_in_period transaction_history now 86400)
      else none }

/- ### `send_discord_message` (lines 118–132) -/

/-- Outcome of the single `requests.post` call: either the call raises
(network error, timeout), or it yields a response with a status code. -/
inductive PostOutcome where
  | exn : PostOutcome
  | resp : ℕ → PostOutcome
  deriving Repr, DecidableEq

/-- Observable result of `send_discord_message`: the returned Bool, how
many POST attempts were made, and whether the error print ran. -/
structure SendResult where
  ok : Bool
  attempts : ℕ
  logged : Bool
  deriving Repr, DecidableEq

/-- Method `requests.Response.raise_for_status()` raises exactly for status codes
in `[400, 600)` (4xx client errors and 5xx server errors). -/
def raise_for_status_raises (status : ℕ) : Bool := decide (400 ≤ status ∧ status < 600)

/-- Function `send_discord_message` (lines 118–132): one POST; if it raises, or
`raise_for_status` raises, the `except` block prints the error and the
function returns `False`; otherwise it returns `True`. The message content
and optional embed do not influence the control flow. -/
def send_discord_message (content : String) (embed : Option (List (String × String)))
    (outcome : PostOutcome) : SendResult :=
  match outcome with
  | PostOutcome.exn => { ok := false, attempts := 1, logged := true }
  | PostOutcome.resp status =>
    if raise_for_status_raises status then { ok := false, attempts := 1, logged := true }
    else { ok := true, attempts := 1, logged := false }

/- ### `get_usdc_balance` (lines 32–77) -/

/-- Python `int.from_bytes(bs, byteorder='little')`. -/
def int_from_bytes_le (bs : List ℕ) : ℕ := bs.foldr (fun b acc => b + 256 * acc) 0

/-- Environment of one `get_usdc_balance` call: the outcome of each RPC
interaction. `Except.error ()` is a raised exception. Client/pubkey
construction failures are subsumed in `tokenAccounts` erroring (they are
caught by the same outer `except`).
* `tokenAccounts`: `get_token_accounts_by_owner(...).value`, a list.
* `accountData`: `get_account_info(...).value`, `none` for a null value,
  otherwise the raw data bytes.
* `balanceResp`: `get_token_account_balance(...).value`, `none` for a null
  value, otherwise the optional `ui_amount` float. -/
structure RpcEnv where
  tokenAccounts : Except Unit (List Unit)
  accountData : Except Unit (Option (List ℕ))
  balanceResp : Except Unit (Option (Option ℚ))

/-- Observable result of one `get_usdc_balance` call: the returned balance
and whether the error print of line 76 ran. The outer `except` handler is
the only log in the function: the inner `except` of line 62 swallows the
balance-query exception silently, and the `return 0.0` of line 74 (empty
token-account list, falsy values, unusable fallback data) prints nothing. -/
structure BalanceResult where
  value : ℚ
  logged : Bool
  deriving Repr, DecidableEq

/-- Function `get_usdc_balance` (lines 32–77): primary path reads
`ui_amount or 0.0` from the balance RPC; if that RPC raises, the fallback
decodes bytes 64–72 of the raw account data as a little-endian `u64` and
divides by `10^6`; every other path — empty token-account list, falsy
values, short data, or any raised exception — yields `0.0`. `logged` is
true exactly on the outer-`except` paths (a raised token-account or
account-info query), where line 76 prints the error; all other `0.0`
paths are silent. -/
def get_usdc_balance (env : RpcEnv) : BalanceResult :=
  match env.tokenAccounts with
  | Except.error _ => ⟨0, true⟩
  | Except.ok accounts =>
    if accounts = [] then ⟨0, false⟩
    else
      match env.accountData with
      | Except.error _ => ⟨0, true⟩
      | Except.ok accountValue =>
        match env.balanceResp with
        | Except.ok (some ui_amount) =>
          match ui_amount with
          | some u => ⟨u, false⟩
          | none => ⟨0, false⟩
        | Except.ok none => ⟨0, false⟩
        | Except.error _ =>
          match accountValue with
          | none => ⟨0, false⟩
          | some data =>
            if data = [] then ⟨0, false⟩
            else if 72 ≤ data.length then
              ⟨((int_from_bytes_le ((data.drop 64).take 8) : ℚ)) / 1000000, false⟩
            else ⟨0, false⟩

/- ### The monitoring loop (lines 233–293) -/

/-- The mutable monitoring state of `monitor_usdc_transactions`: the
globals `total_usdc_received` (line 25) and `transaction_history`
(line 27), and the local baseline `initial_balance` (line 247). -/
structure MonitorState where
  total_usdc_received : ℚ
  transaction_history : List (ℚ × ℚ)
  initial_balance : ℚ
  deriving Repr, DecidableEq

/-- The balance-delta handling of one loop iteration (lines 261–276):
a balance above the baseline appends `(now, delta)` and accumulates the
total; a balance below it only resets the baseline; an equal balance
changes nothing. -/
def monitor_step (s : MonitorState) (now balance : ℚ) : MonitorState :=
  if s.initial_balance < balance then
    { total_usdc_received := s.total_usdc_received + (balance - s.initial_balance)
      transaction_history := s.transaction_history ++ [(now, balance - s.initial_balance)]
      initial_balance := balance }
  else if balance < s.initial_balance then
    { s with initial_balance := balance }
  else s

/-- The loop's delta handling iterated over a sequence of polls, each poll
being a pair `(now, freshly read balance)`. -/
def run_deltas (s : MonitorState) : List (ℚ × ℚ) → MonitorState
  | [] => s
  | ob :: rest => run_deltas (monitor_step s ob.1 ob.2) rest

/-- The running-total invariant of the spec (§3 RunningTotal):
`total_usdc_received` equals the sum of the recorded amounts. -/
def monitor_inv (s : MonitorState) : Prop :=
  s.total_usdc_received = (s.transaction_history.map Prod.snd).sum

instance (s : MonitorState) : Decidable (monitor_inv s) := by
  unfold monitor_inv; infer_instance

/-- Outcome of running the body of one `while True` iteration
(lines 253–286): either it completes, or it raises somewhere, in both
cases leaving the monitoring state it produced (raising midway keeps the
mutations already performed). -/
inductive CycleOutcome where
  | normal : MonitorState → CycleOutcome
  | raised : MonitorState → CycleOutcome

/-- State of the `while True` loop: the monitoring state and the log of
timestamps printed by the `except` handler of line 288–289. -/
structure LoopState where
  st : MonitorState
  error_log : List ℚ

/-- One `while True` iteration (lines 252–293): run the body under `try`;
a raised exception is caught at the iteration boundary and logged with the
current timestamp; either way the loop falls through to `time.sleep`. -/
def cycle_step (now : ℚ) (body : MonitorState → CycleOutcome) (ls : LoopState) : LoopState :=
  match body ls.st with
  | CycleOutcome.normal s => { st := s, error_log := ls.error_log }
  | CycleOutcome.raised s => { st := s, error_log := ls.error_log ++ [now] }

/-- The `while True` loop run over a finite schedule of iteration bodies,
each tagged with the wall-clock time of its cycle. -/
def monitor_run (ls : LoopState) : List (ℚ × (MonitorState → CycleOutcome)) → LoopState
  | [] => ls
  | c :: rest => monitor_run (cycle_step c.1 c.2 ls) rest

/- ### Helper definitions for the grouping proof -/

/-- Accumulator form of the grouped integer part: chunks are given least
significant first, each chunk least significant digit first. -/
def joinRev : List (List Char) → List Char → List Char
  | [], acc => acc
  | [c], acc => c.reverse ++ acc
  | c :: rest, acc => joinRev rest (' ' :: (c.reverse ++ acc))

/- ### Digit-character lemmas -/

theorem mem_decDigitsRevFuel {f n : ℕ} {c : Char} (h : c ∈ decDigitsRevFuel f n) :
    ∃ d, d < 10 ∧ c = Nat.digitChar d := by
  induction f generalizing n with
  | zero => simp [decDigitsRevFuel] at h
  | succ f ih =>
    rw [decDigitsRevFuel] at h
    by_cases hn : n = 0
    · simp [hn] at h
    · simp only [hn, if_false, List.mem_cons] at h
      rcases h with h | h
      · exact ⟨n % 10, Nat.mod_lt _ (by norm_num), h⟩
      · exact ih h

theorem mem_natDigits {n : ℕ} {c : Char} (h : c ∈ natDigits n) :
    ∃ d, d < 10 ∧ c = Nat.digitChar d := by
  unfold natDigits at h
  by_cases hn : n = 0
  · simp [hn] at h
    exact ⟨0, by norm_num, by simp [h, Nat.digitChar]⟩
  · simp only [hn, if_false, List.mem_reverse] at h
    exact mem_decDigitsRevFuel h

theorem digitChar_ne_dot : ∀ d, d < 10 → Nat.digitChar d ≠ '.' := by decide

theorem mem_natDigits_ne_dot {n : ℕ} {c : Char} (h : c ∈ natDigits n) : c ≠ '.' := by
  obtain ⟨d, hd, rfl⟩ := mem_natDigits h
  exact digitChar_ne_dot d hd

theorem mem_padFrac_ne_dot {m : ℕ} {c : Char} (h : c ∈ padFrac m) : c ≠ '.' := by
  unfold padFrac at h
  rw [List.mem_append] at h
  rcases h with h | h
  · rw [List.eq_of_mem_replicate h]
    decide
  · exact mem_natDigits_ne_dot h

theorem natDigits_ne_nil (n : ℕ) : natDigits n ≠ [] := by
  unfold natDigits
  by_cases hn : n = 0
  · simp [hn]
  · cases n with
    | zero => exact absurd rfl hn
    | succ m => simp [hn, decDigitsRev, decDigitsRevFuel]

/- ### `rstrip` lemmas -/

theorem dropWhile_append_of_nil {p : α → Bool} {X : List α} (hX : List.dropWhile p X = [])
    (Z : List α) : List.dropWhile p (X ++ Z) = List.dropWhile p Z := by
  induction X with
  | nil => simp
  | cons x X ih =>
    by_cases h : p x
    · rw [List.dropWhile_cons_of_pos h] at hX
      rw [List.cons_append, List.dropWhile_cons_of_pos h]
      exact ih hX
    · rw [List.dropWhile_cons_of_neg h] at hX
      exact absurd hX (by simp)

theorem dropWhile_append_of_ne {p : α → Bool} {X : List α} (hX : List.dropWhile p X ≠ [])
    (Z : List α) : List.dropWhile p (X ++ Z) = List.dropWhile p X ++ Z := by
  induction X with
  | nil => exact absurd rfl hX
  | cons x X ih =>
    by_cases h : p x
    · rw [List.dropWhile_cons_of_pos h] at hX
      simp only [List.cons_append, List.dropWhile_cons_of_pos h]
      exact ih hX
    · simp only [List.cons_append, List.dropWhile_cons_of_neg h]

theorem rdropWhile_append_of_ne {p : α → Bool} {Z : List α} (hZ : List.rdropWhile p Z ≠ [])
    (X : List α) : List.rdropWhile p (X ++ Z) = X ++ List.rdropWhile p Z := by
  have hz : List.dropWhile p Z.reverse ≠ [] := by
    intro hc
    exact hZ (by simp [List.rdropWhile, hc])
  simp only [List.rdropWhile, List.reverse_append]
  rw [dropWhile_append_of_ne hz, List.reverse_append, List.reverse_reverse]

theorem rdropWhile_cons_of_neg (p : α → Bool) (x : α) (l : List α) (h : ¬p x) :
    List.rdropWhile p (x :: l) = x :: List.rdropWhile p l := by
  simp only [List.rdropWhile, show x :: l = [x] ++ l from rfl, List.reverse_append]
  by_cases hl : List.dropWhile p l.reverse = []
  · rw [dropWhile_append_of_nil hl]
    simp [List.dropWhile, h, hl]
  · rw [dropWhile_append_of_ne hl]
    simp [List.dropWhile, h]

theorem mem_rstrip {c0 c : Char} {l : List Char} (h : c ∈ rstrip c0 l) : c ∈ l := by
  unfold rstrip List.rdropWhile at h
  rw [List.mem_reverse] at h
  have hs := List.dropWhile_suffix (l := l.reverse) (fun x => x == c0)
  have : c ∈ l.reverse := hs.sublist.subset h
  simpa using this

theorem rstrip_zero_mid (A F : List Char) :
    rstrip '0' (A ++ '.' :: F) = A ++ '.' :: rstrip '0' F := by
  unfold rstrip
  have hcons :
      List.rdropWhile (fun x => x == '0') ('.' :: F) =
        '.' :: List.rdropWhile (fun x => x == '0') F :=
    rdropWhile_cons_of_neg _ _ _ (by decide)
  rw [show A ++ '.' :: F = A ++ ('.' :: F) from rfl,
    rdropWhile_append_of_ne (by rw [hcons]; simp) A, hcons]

theorem rstrip_dot_strip (A : List Char) (hA : ∀ c ∈ A, c ≠ '.') :
    rstrip '.' (A ++ ['.']) = A := by
  unfold rstrip
  rw [List.rdropWhile_concat_pos _ _ '.' (by decide)]
  apply List.rdropWhile_eq_self_iff.mpr
  intro hl
  have hm := List.getLast_mem hl
  have := hA _ hm
  simpa using this

theorem rstrip_dot_keep (A F : List Char) (hF : F ≠ []) (hFc : ∀ c ∈ F, c ≠ '.') :
    rstrip '.' (A ++ '.' :: F) = A ++ '.' :: F := by
  have hFself : List.rdropWhile (fun x => x == '.') F = F := by
    apply List.rdropWhile_eq_self_iff.mpr
    intro hl
    have := hFc _ (List.getLast_mem hl)
    simpa using this
  unfold rstrip
  rw [show A ++ '.' :: F = (A ++ ['.']) ++ F from by simp,
    rdropWhile_append_of_ne (by rw [hFself]; exact hF) (A ++ ['.']), hFself]

/- ### `split_dot` lemmas -/

theorem split_dot_no_dot (A : List Char) (hA : ∀ c ∈ A, c ≠ '.') :
    split_dot A = (A, none) := by
  induction A with
  | nil => rfl
  | cons a A ih =>
    have ha : a ≠ '.' := hA a (by simp)
    simp [split_dot, ha, ih fun c hc => hA c (List.mem_cons_of_mem _ hc)]

theorem split_dot_mid (A F : List Char) (hA : ∀ c ∈ A, c ≠ '.') :
    split_dot (A ++ '.' :: F) = (A, some F) := by
  induction A with
  | nil => simp [split_dot]
  | cons a A ih =>
    have ha : a ≠ '.' := hA a (by simp)
    simp [split_dot, ha, ih fun c hc => hA c (List.mem_cons_of_mem _ hc)]

/- ### Grouping-loop equivalence -/

theorem format_integer_loop_shift (ds : List Char) :
    ∀ i acc, 1 ≤ i → format_integer_loop ds (i + 3) acc = format_integer_loop ds i acc := by
  induction ds with
  | nil => intro i acc _; rfl
  | cons d ds ih =>
    intro i acc hi
    simp only [format_integer_loop]
    have hif : (if 0 < i + 3 ∧ (i + 3) % 3 = 0 then ' ' :: acc else acc) =
        (if 0 < i ∧ i % 3 = 0 then ' ' :: acc else acc) := by
      by_cases hc : 0 < i ∧ i % 3 = 0
      · rw [if_pos hc, if_pos (by omega)]
      · rw [if_neg hc, if_neg (by omega)]
    rw [hif]
    have := ih (i + 1) (d :: (if 0 < i ∧ i % 3 = 0 then ' ' :: acc else acc)) (by omega)
    rw [show i + 3 + 1 = i + 1 + 3 from by omega]
    exact this

theorem format_integer_loop_chunks :
    ∀ n rds acc, rds.length ≤ n → format_integer_loop rds 0 acc = joinRev (chunksRev rds) acc := by
  intro n
  induction n with
  | zero =>
    intro rds acc h
    have : rds = [] := List.eq_nil_of_length_eq_zero (Nat.le_zero.mp h)
    subst this
    simp [format_integer_loop, chunksRev, joinRev]
  | succ n ih =>
    intro rds acc h
    match rds with
    | [] => simp [format_integer_loop, chunksRev, joinRev]
    | [a] => simp [format_integer_loop, chunksRev, joinRev]
    | [a, b] => simp [format_integer_loop, chunksRev, joinRev]
    | [a, b, c] => simp [format_integer_loop, chunksRev, joinRev]
    | a :: b :: c :: d :: ds =>
      have h3 : format_integer_loop (a :: b :: c :: d :: ds) 0 acc =
          format_integer_loop ds 4 (d :: ' ' :: c :: b :: a :: acc) := by
        simp [format_integer_loop]
      have h4 : format_integer_loop ds 4 (d :: ' ' :: c :: b :: a :: acc) =
          format_integer_loop ds 1 (d :: ' ' :: c :: b :: a :: acc) :=
        format_integer_loop_shift ds 1 _ (by norm_num)
      have h5 : format_integer_loop (d :: ds) 0 (' ' :: c :: b :: a :: acc) =
          format_integer_loop ds 1 (d :: ' ' :: c :: b :: a :: acc) := by
        simp [format_integer_loop]
      have hlen : (d :: ds).length ≤ n := by
        simp only [List.length_cons] at h ⊢
        omega
      have h6 := ih (d :: ds) (' ' :: c :: b :: a :: acc) hlen
      have h7 : chunksRev (a :: b :: c :: d :: ds) = [a, b, c] :: chunksRev (d :: ds) := by
        simp [chunksRev]
      have h8 : joinRev ([a, b, c] :: chunksRev (d :: ds)) acc =
          joinRev (chunksRev (d :: ds)) (' ' :: c :: b :: a :: acc) := by
        rw [show chunksRev (d :: ds) = (d :: ds).take 3 :: chunksRev (ds.drop 2) from by
          rw [chunksRev]]
        rfl
      rw [h3, h4, ← h5, h6, h7, h8]

theorem spec_group3_cons₂ (c c2 : List Char) (rest : List (List Char)) :
    spec_group3 (c :: c2 :: rest) = c ++ ' ' :: spec_group3 (c2 :: rest) := rfl

theorem spec_group3_concat :
    ∀ xs : List (List Char), ∀ y, xs ≠ [] → spec_group3 (xs ++ [y]) = spec_group3 xs ++ ' ' :: y := by
  intro xs
  induction xs with
  | nil => intro y h; exact absurd rfl h
  | cons x xs ih =>
    intro y _
    cases xs with
    | nil => simp [spec_group3]
    | cons x2 xs2 =>
      have hih := ih y (by simp)
      simp only [List.cons_append] at hih ⊢
      rw [spec_group3_cons₂, hih, spec_group3_cons₂]
      simp

theorem joinRev_eq_spec_group3 :
    ∀ cs : List (List Char), ∀ acc,
      joinRev cs acc = spec_group3 ((cs.map List.reverse).reverse) ++ acc := by
  intro cs
  induction cs with
  | nil => intro acc; simp [joinRev, spec_group3]
  | cons c rest ih =>
    intro acc
    cases rest with
    | nil => simp [joinRev, spec_group3]
    | cons c2 rest2 =>
      have hj : joinRev (c :: c2 :: rest2) acc = joinRev (c2 :: rest2) (' ' :: (c.reverse ++ acc)) :=
        rfl
      rw [hj, ih]
      have hsplit : (((c :: c2 :: rest2).map List.reverse).reverse : List (List Char)) =
          ((c2 :: rest2).map List.reverse).reverse ++ [c.reverse] := by
        simp
      rw [hsplit, spec_group3_concat _ _ (by intro hc; simp at hc)]
      simp

theorem format_integer_loop_eq_spec_group_int (ds : List Char) :
    format_integer_loop ds.reverse 0 [] = spec_group_int ds := by
  rw [format_integer_loop_chunks ds.reverse.length ds.reverse [] le_rfl,
    joinRev_eq_spec_group3, spec_group_int]
  simp

/- ### `format_from_fixed` against the spec-side formatter -/

theorem format_from_fixed_eq (m : ℕ) :
    format_from_fixed m =
      if rstrip '0' (padFrac (m % 10 ^ 10)) = [] then
        String.mk (spec_group_int (natDigits (m / 10 ^ 10)))
      else
        String.mk (spec_group_int (natDigits (m / 10 ^ 10)) ++ '.' ::
          rstrip '0' (padFrac (m % 10 ^ 10))) := by
  have hAdot : ∀ c ∈ natDigits (m / 10 ^ 10), c ≠ '.' := fun c hc => mem_natDigits_ne_dot hc
  by_cases hF : rstrip '0' (padFrac (m % 10 ^ 10)) = []
  · simp only [format_from_fixed, pyFixedChars]
    rw [rstrip_zero_mid, hF, rstrip_dot_strip _ hAdot, split_dot_no_dot _ hAdot]
    simp only [format_integer_loop_eq_spec_group_int]
    simp
  · have hFc : ∀ c ∈ rstrip '0' (padFrac (m % 10 ^ 10)), c ≠ '.' := fun c hc =>
      mem_padFrac_ne_dot (mem_rstrip hc)
    simp only [format_from_fixed, pyFixedChars]
    rw [rstrip_zero_mid, rstrip_dot_keep _ _ hF hFc, split_dot_mid _ _ hAdot]
    simp only [if_neg hF, format_integer_loop_eq_spec_group_int]

theorem format_number_eq_spec_format (q : ℚ) : format_number q = spec_format q := by
  unfold format_number spec_format
  by_cases h : q = 0
  · rw [if_pos h, if_pos h]
  · rw [if_neg h, if_neg h, format_from_fixed_eq]

/- ### Rounding lemmas -/

theorem roundHalfEvenNN_intCast (z : ℤ) : roundHalfEvenNN (z : ℚ) = z.toNat := by
  unfold roundHalfEvenNN
  rw [Int.floor_intCast, sub_self]
  rw [if_pos (by norm_num)]

theorem fixed10_num_small {q : ℚ} (h0 : 0 ≤ q) (h : q * 10 ^ 10 < 1 / 2) :
    fixed10_num q = 0 := by
  unfold fixed10_num roundHalfEvenNN
  have hfl : ⌊q * 10 ^ 10⌋ = 0 := by
    rw [Int.floor_eq_zero_iff]
    constructor
    · positivity
    · exact lt_trans h (by norm_num)
  rw [hfl]
  rw [if_pos (by push_cast; linarith)]
  rfl

/- ### Window-sum lemmas -/

theorem sum_if_ge_eq_filter (cutoff : ℚ) (l : List (ℚ × ℚ)) :
    sum_if_ge cutoff l = ((l.filter fun r => cutoff ≤ r.1).map Prod.snd).sum := by
  induction l with
  | nil => simp [sum_if_ge]
  | cons r rest ih =>
    by_cases h : cutoff ≤ r.1
    · simp [sum_if_ge, h, ih, List.filter_cons]
    · simp [sum_if_ge, h, ih, List.filter_cons]

theorem get_received_in_period_eq (history : List (ℚ × ℚ)) (now w : ℚ) :
    get_received_in_period history now w =
      ((history.filter fun r => now - w ≤ r.1).map Prod.snd).sum := by
  unfold get_received_in_period
  by_cases he : history = []
  · simp [he]
  · rw [if_neg he, sum_if_ge_eq_filter]

/- ### Claim theorems -/

/-- C1: at every point during monitoring the running total equals the sum
of the amounts in the transaction history: the invariant
`total_usdc_received = Σ amounts` is preserved by every balance-delta step
(lines 261–276) and hence by any finite run of the loop's delta handling. -/
theorem C1_running_total_invariant :
    (∀ (s : MonitorState) (now balance : ℚ),
      monitor_inv s → monitor_inv (monitor_step s now balance)) ∧
    (∀ (s : MonitorState) (obs : List (ℚ × ℚ)),
      monitor_inv s → monitor_inv (run_deltas s obs)) := by
  have hstep : ∀ (s : MonitorState) (now balance : ℚ),
      monitor_inv s → monitor_inv (monitor_step s now balance) := by
    intro s now balance hs
    unfold monitor_inv monitor_step at *
    by_cases h1 : s.initial_balance < balance
    · rw [if_pos h1]
      simp [hs]
    · rw [if_neg h1]
      by_cases h2 : balance < s.initial_balance
      · rw [if_pos h2]
        simpa using hs
      · rw [if_neg h2]
        exact hs
  refine ⟨hstep, ?_⟩
  intro s obs
  induction obs generalizing s with
  | nil => exact fun hs => hs
  | cons ob rest ih =>
    intro hs
    simp only [run_deltas]
    exact ih _ (hstep _ _ _ hs)

/-- C1 witness: the invariant holds after a concrete run from the fresh
state (a rise to 150, a drop to 120, a rise to 130). -/
theorem C1_running_total_invariant_witness :
    monitor_inv (run_deltas ⟨0, [], 100⟩ [(1, 150), (2, 120), (3, 130)]) := by
  apply C1_running_total_invariant.2
  simp [monitor_inv]

/-- C2: `format_number 0 = "0"`, `format_number 1234567.5 = "1 234 567.5"`,
and on every nonnegative value the source formatter agrees with the spec's
description (fix to ten digits, strip, group the integer part only). -/
theorem C2_format_number_spec :
    format_number 0 = "0" ∧
    format_number (1234567.5 : ℚ) = "1 234 567.5" ∧
    ∀ q : ℚ, 0 ≤ q → format_number q = spec_format q := by
  refine ⟨?_, ?_, fun q _ => format_number_eq_spec_format q⟩
  · unfold format_number
    rw [if_pos rfl]
  · have h1 : (1234567.5 : ℚ) ≠ 0 := by norm_num
    unfold format_number
    rw [if_neg h1]
    have h2 : fixed10_num (1234567.5 : ℚ) = 12345675000000000 := by
      unfold fixed10_num
      rw [show (1234567.5 : ℚ) * 10 ^ 10 = ((12345675000000000 : ℤ) : ℚ) from by norm_num,
        roundHalfEvenNN_intCast]
      rfl
    rw [h2]
    decide

/-- C2 witness: the refinement clause applied at the concrete nonnegative
value 37. -/
theorem C2_format_number_spec_witness :
    (0 : ℚ) ≤ 37 ∧ format_number 37 = spec_format 37 :=
  ⟨by norm_num, C2_format_number_spec.2.2 37 (by norm_num)⟩

/-- C3: the windowed sum is exactly the sum of the amounts of records with
`timestamp ≥ now - window_seconds`; a record exactly at the boundary
contributes its amount, a strictly older record contributes nothing. -/
theorem C3_window_sum (history : List (ℚ × ℚ)) (now window_seconds : ℚ) :
    get_received_in_period history now window_seconds =
      ((history.filter fun r => now - window_seconds ≤ r.1).map Prod.snd).sum ∧
    (∀ a rest, get_received_in_period ((now - window_seconds, a) :: rest) now window_seconds =
      a + get_received_in_period rest now window_seconds) ∧
    (∀ t a rest, t < now - window_seconds →
      get_received_in_period ((t, a) :: rest) now window_seconds =
        get_received_in_period rest now window_seconds) := by
  refine ⟨get_received_in_period_eq _ _ _, ?_, ?_⟩
  · intro a rest
    unfold get_received_in_period
    rw [if_neg (List.cons_ne_nil _ _)]
    simp only [sum_if_ge]
    rw [if_pos le_rfl]
    by_cases hrest : rest = []
    · subst hrest
      simp [sum_if_ge]
    · rw [if_neg hrest]
  · intro t a rest ht
    unfold get_received_in_period
    rw [if_neg (List.cons_ne_nil _ _)]
    simp only [sum_if_ge]
    rw [if_neg (not_le.mpr ht)]
    by_cases hrest : rest = []
    · subst hrest
      simp [sum_if_ge]
    · rw [if_neg hrest]
      exact zero_add _

/-- C3 witness: with `now = 1000`, window 900, a record at time 50 is
strictly older than the cutoff 100 and is excluded. -/
theorem C3_window_sum_witness :
    get_received_in_period [(50, 7), (500, 3)] 1000 900 =
      get_received_in_period [(500, 3)] 1000 900 :=
  (C3_window_sum [(500, 3)] 1000 900).2.2 50 7 [(500, 3)] (by norm_num)

/-- C4: the statistics always carry the 5-minute sum, carry each longer
window exactly when the elapsed session time reaches the window length
(900, 3600, 86400 seconds), and at exactly 900 s the 15-minute field is
present with the 15-minute windowed sum. -/
theorem C4_statistics_gating (history : List (ℚ × ℚ)) (now session_start : ℚ) :
    (get_statistics_data history now (some session_start)).last_5_min =
      get_received_in_period history now 300 ∧
    ((get_statistics_data history now (some session_start)).last_15_min.isSome ↔
      900 ≤ now - session_start) ∧
    ((get_statistics_data history now (some session_start)).last_hour.isSome ↔
      3600 ≤ now - session_start) ∧
    ((get_statistics_data history now (some session_start)).last_24h.isSome ↔
      86400 ≤ now - session_start) ∧
    (now - session_start = 900 →
      (get_statistics_data history now (some session_start)).last_15_min =
        some (get_received_in_period history now 900)) := by
  refine ⟨rfl, ?_, ?_, ?_, ?_⟩
  · unfold get_statistics_data
    by_cases h : 900 ≤ now - session_start
    · simp [h]
    · simp [h]
  · unfold get_statistics_data
    by_cases h : 3600 ≤ now - session_start
    · simp [h]
    · simp [h]
  · unfold get_statistics_data
    by_cases h : 86400 ≤ now - session_start
    · simp [h]
    · simp [h]
  · intro h
    unfold get_statistics_data
    simp only []
    rw [if_pos (by rw [h])]

/-- C4 witness: at exactly 900 elapsed seconds the 15-minute field is
present. -/
theorem C4_statistics_gating_witness :
    (get_statistics_data [] 900 (some 0)).last_15_min =
      some (get_received_in_period [] 900 900) :=
  (C4_statistics_gating [] 900 0).2.2.2.2 (by norm_num)

/-- C5: when the fresh balance exceeds the baseline, the step appends
exactly the record `(now, balance - baseline)`, adds `balance - baseline`
to the running total, and sets the baseline to the new balance. -/
theorem C5_inbound_delta (s : MonitorState) (now balance : ℚ)
    (h : s.initial_balance < balance) :
    monitor_step s now balance =
      { total_usdc_received := s.total_usdc_received + (balance - s.initial_balance)
        transaction_history := s.transaction_history ++ [(now, balance - s.initial_balance)]
        initial_balance := balance } := by
  unfold monitor_step
  rw [if_pos h]

/-- C5 witness: baseline 100, poll 150 — one record `(17, 50)`, total 50,
baseline 150. -/
theorem C5_inbound_delta_witness :
    monitor_step ⟨0, [], 100⟩ 17 150 = ⟨50, [(17, 50)], 150⟩ := by
  have h := C5_inbound_delta ⟨0, [], 100⟩ 17 150 (by norm_num)
  rw [h]
  norm_num

/-- C6: when the fresh balance is below the baseline, the step only resets
the baseline — history and running total are untouched — and a later rise
above the new baseline is still recorded as an inbound delta. -/
theorem C6_outbound_frame (s : MonitorState) (now balance : ℚ)
    (h : balance < s.initial_balance) :
    monitor_step s now balance =
      { total_usdc_received := s.total_usdc_received
        transaction_history := s.transaction_history
        initial_balance := balance } ∧
    ∀ now2 b2, balance < b2 →
      (monitor_step (monitor_step s now balance) now2 b2).transaction_history =
        s.transaction_history ++ [(now2, b2 - balance)] ∧
      (monitor_step (monitor_step s now balance) now2 b2).total_usdc_received =
        s.total_usdc_received + (b2 - balance) := by
  have hstep : monitor_step s now balance =
      { total_usdc_received := s.total_usdc_received
        transaction_history := s.transaction_history
        initial_balance := balance } := by
    unfold monitor_step
    rw [if_neg (lt_asymm h), if_pos h]
  refine ⟨hstep, ?_⟩
  intro now2 b2 hb2
  rw [hstep]
  constructor
  · simp [monitor_step, hb2]
  · simp [monitor_step, hb2]

/-- C6 witness: baseline 150, poll 120 — no record appended, total
unchanged, baseline 120. -/
theorem C6_outbound_frame_witness :
    monitor_step ⟨30, [(1, 30)], 150⟩ 2 120 = ⟨30, [(1, 30)], 120⟩ := by
  have h := (C6_outbound_frame ⟨30, [(1, 30)], 150⟩ 2 120 (by norm_num)).1
  simpa using h

/-- C7 counterexample: the claim's "logs the error" fails on the code for
two of its enumerated provider-error cases — a missing token account
(empty account list) and a raised balance query whose fallback is
unavailable (null account-info value) both reach the plain `return 0.0`
of line 74 and print nothing; only the outer `except` of line 76 logs. -/
theorem C7_counterexample :
    (get_usdc_balance ⟨Except.ok [], Except.ok none, Except.ok none⟩).value = 0 ∧
    (get_usdc_balance ⟨Except.ok [], Except.ok none, Except.ok none⟩).logged = false ∧
    (get_usdc_balance ⟨Except.ok [()], Except.ok none, Except.error ()⟩).value = 0 ∧
    (get_usdc_balance ⟨Except.ok [()], Except.ok none, Except.error ()⟩).logged = false :=
  ⟨rfl, rfl, rfl, rfl⟩

/-- C7 (amended): `get_usdc_balance` is total (the embedding returns a
value in every environment, mirroring the catch-all `except`), never
negative (given the provider invariant that a reported `ui_amount` is
nonnegative), and returns `0.0` on every provider-error path instead of
propagating; the error is logged exactly when an exception reaches the
outer handler (a raised token-account or account-info query), while a
missing token account and a raised balance query with the fallback
unavailable return `0.0` silently, without a log. -/
theorem C7_balance_error_handling (env : RpcEnv)
    (hui : ∀ u, env.balanceResp = Except.ok (some (some u)) → 0 ≤ u) :
    0 ≤ (get_usdc_balance env).value ∧
    (env.tokenAccounts = Except.error () → get_usdc_balance env = ⟨0, true⟩) ∧
    (env.tokenAccounts = Except.ok [] → get_usdc_balance env = ⟨0, false⟩) ∧
    (∀ accounts, env.tokenAccounts = Except.ok accounts → accounts ≠ [] →
      env.accountData = Except.error () → get_usdc_balance env = ⟨0, true⟩) ∧
    (∀ accounts, env.tokenAccounts = Except.ok accounts → accounts ≠ [] →
      env.balanceResp = Except.error () → env.accountData = Except.ok none →
      get_usdc_balance env = ⟨0, false⟩) := by
  obtain ⟨ta, ad, br⟩ := env
  refine ⟨?_, ?_, ?_, ?_, ?_⟩
  · unfold get_usdc_balance
    rcases ta with e | accounts
    · simp
    · by_cases ha : accounts = []
      · simp [ha]
      · dsimp only
        rw [if_neg ha]
        rcases ad with e | av
        · simp
        · rcases br with e | v
          · rcases av with _ | data
            · simp
            · by_cases hd : data = []
              · simp [hd]
              · dsimp only
                rw [if_neg hd]
                by_cases hlen : 72 ≤ data.length
                · rw [if_pos hlen]
                  dsimp only
                  positivity
                · rw [if_neg hlen]
          · rcases v with _ | ui
            · simp
            · rcases ui with _ | u
              · simp
              · exact hui u rfl
  · intro h
    rw [show ta = Except.error () from h]
    rfl
  · intro h
    rw [show ta = Except.ok [] from h]
    unfold get_usdc_balance
    simp
  · intro accounts h1 h2 h3
    rw [show ta = Except.ok accounts from h1, show ad = Except.error () from h3]
    unfold get_usdc_balance
    dsimp only
    rw [if_neg h2]
  · intro accounts h1 h2 h3 h4
    rw [show ta = Except.ok accounts from h1, show br = Except.error () from h3,
      show ad = Except.ok none from h4]
    unfold get_usdc_balance
    dsimp only
    rw [if_neg h2]

/-- C7 witness: the silent exhausted-fallback environment — the balance
query raises and the account info carries a null value — returns `0.0`
and does not log. -/
theorem C7_balance_error_handling_witness :
    0 ≤ (get_usdc_balance ⟨Except.ok [()], Except.ok none, Except.error ()⟩).value ∧
    get_usdc_balance ⟨Except.ok [()], Except.ok none, Except.error ()⟩ = ⟨0, false⟩ := by
  have h := C7_balance_error_handling ⟨Except.ok [()], Except.ok none, Except.error ()⟩
    (fun u hu => by simp at hu)
  exact ⟨h.1, h.2.2.2.2 [()] rfl (by simp) rfl rfl⟩

/-- C8 counterexample: a final response status 304 is not a 2xx status,
yet `send_discord_message` reports success — `requests`'
`raise_for_status` only raises for 4xx/5xx, so the claim's "returns False
on any non-2xx response" fails at 3xx statuses. -/
theorem C8_counterexample :
    (send_discord_message ("") none (PostOutcome.resp 304)).ok = true ∧
    ¬(200 ≤ 304 ∧ 304 < 300) := by
  constructor
  · rfl
  · decide

/-- C8 (amended): `send_discord_message` never propagates a delivery
failure: it makes exactly one POST attempt, returns `False` (after logging)
exactly when the POST raises or the final response status is in
`[400, 600)` — the statuses `raise_for_status` raises for — and returns
`True` otherwise. -/
theorem C8_send_amended (content : String) (embed : Option (List (String × String)))
    (outcome : PostOutcome) :
    ((send_discord_message content embed outcome).ok = false ↔
      outcome = PostOutcome.exn ∨
        ∃ s, outcome = PostOutcome.resp s ∧ 400 ≤ s ∧ s < 600) ∧
    (send_discord_message content embed outcome).attempts = 1 ∧
    (send_discord_message content embed outcome).logged =
      !(send_discord_message content embed outcome).ok := by
  cases outcome with
  | exn => simp [send_discord_message]
  | resp s =>
    by_cases h : 400 ≤ s ∧ s < 600
    · simp [send_discord_message, raise_for_status_raises, h]
    · simp [send_discord_message, raise_for_status_raises, h]

/-- C9: the `while True` loop composes over any schedule of cycles (no
early exit), and a cycle whose body raises is logged with that cycle's
timestamp while the loop goes on to the remaining cycles. -/
theorem C9_loop_survives :
    (∀ (ls : LoopState) (c1 c2 : List (ℚ × (MonitorState → CycleOutcome))),
      monitor_run ls (c1 ++ c2) = monitor_run (monitor_run ls c1) c2) ∧
    (∀ (now : ℚ) (body : MonitorState → CycleOutcome)
        (rest : List (ℚ × (MonitorState → CycleOutcome))) (ls : LoopState) (s' : MonitorState),
      body ls.st = CycleOutcome.raised s' →
      monitor_run ls ((now, body) :: rest) =
        monitor_run { st := s', error_log := ls.error_log ++ [now] } rest) := by
  constructor
  · intro ls c1 c2
    induction c1 generalizing ls with
    | nil => rfl
    | cons c rest ih =>
      simp only [List.cons_append, monitor_run]
      exact ih _
  · intro now body rest ls s' h
    simp only [monitor_run, cycle_step, h]

/-- C9 witness: a single raising cycle leaves the loop running and its
timestamp logged. -/
theorem C9_loop_survives_witness :
    monitor_run ⟨⟨0, [], 0⟩, []⟩ [((5 : ℚ), fun s => CycleOutcome.raised s)] =
      { st := ⟨0, [], 0⟩, error_log := [5] } := by
  have h := C9_loop_survives.2 5 (fun s => CycleOutcome.raised s) [] ⟨⟨0, [], 0⟩, []⟩
    ⟨0, [], 0⟩ rfl
  simpa using h

/-- C10: the formatter is not injective at zero — any value strictly
between 0 and 5·10⁻¹¹ rounds to ten zero digits, so it renders as `"0"`,
the same output as the exactly-zero value. -/
theorem C10_format_zero_collision (q : ℚ) (h1 : 0 < q) (h2 : q < 5 / 10 ^ 11) :
    format_number q = "0" ∧ format_number q = format_number 0 := by
  have hq0 : q ≠ 0 := ne_of_gt h1
  have hm : fixed10_num q = 0 := by
    apply fixed10_num_small (le_of_lt h1)
    have h3 : q * 10 ^ 10 < 5 / 10 ^ 11 * 10 ^ 10 :=
      mul_lt_mul_of_pos_right h2 (by positivity)
    calc q * 10 ^ 10 < 5 / 10 ^ 11 * 10 ^ 10 := h3
      _ = 1 / 2 := by norm_num
  have hfmt : format_number q = "0" := by
    unfold format_number
    rw [if_neg hq0, hm]
    decide
  refine ⟨hfmt, ?_⟩
  rw [hfmt]
  unfold format_number
  rw [if_pos rfl]

/-- C10 witness: the concrete value 10⁻¹² is strictly positive yet renders
as `"0"`. -/
theorem C10_format_zero_collision_witness :
    format_number (1 / 10 ^ 12 : ℚ) = "0" :=
  (C10_format_zero_collision (1 / 10 ^ 12) (by norm_num) (by norm_num)).1
